import Mathlib

/-!
Verification development for the CSV-driven image-overlay application
(app.js).  JavaScript strings are modelled as `List Char`, JavaScript
finite numbers as `ℚ`, and a JavaScript number that may be `NaN` or
infinite as `Option ℚ` (with `none` standing for any non-finite value;
every call site of the embedded coercions immediately guards the parsed
value with `Number.isFinite`, so this composite view is faithful).
IEEE-754 rounding and overflow are outside the scope of the embedding:
decimal literals are given their exact rational value.
-/

namespace Stationen

/-- Whitespace class used by the JavaScript `trim` method and the regex
class `\s` (restricted to the code points that can actually appear in
the cells this program manipulates). -/
def isJsWhitespace (c : Char) : Bool :=
  c = ' ' || c = '\t' || c = '\n' || c = '\r' || c = '\x0b' || c = '\x0c' ||
  c = Char.ofNat 0xa0 || c = Char.ofNat 0xfeff

/-- ASCII digit test, the regex class `[0-9]`. -/
def isAsciiDigit (c : Char) : Bool :=
  '0' ≤ c && c ≤ '9'

/-- Line terminators, the characters NOT matched by the regex dot. -/
def isLineTerm (c : Char) : Bool :=
  c = '\n' || c = '\r' || c = Char.ofNat 0x2028 || c = Char.ofNat 0x2029

/-- JavaScript `String.prototype.trim`: removes leading and trailing
whitespace. -/
def jsTrim (l : List Char) : List Char :=
  ((l.dropWhile isJsWhitespace).reverse.dropWhile isJsWhitespace).reverse

/-- Value of a string of decimal digits (exact, no overflow). -/
def natOfDigits (l : List Char) : ℕ :=
  l.foldl (fun n c => 10 * n + (c.toNat - 48)) 0

/-- Exact value of the decimal literal `ip . fp`. -/
def decValue (ip fp : List Char) : ℚ :=
  (natOfDigits ip : ℚ) + (natOfDigits fp : ℚ) / (10 : ℚ) ^ fp.length

/-- Apply a sign to a rational value. -/
def signVal (neg : Bool) (q : ℚ) : ℚ :=
  if neg then -q else q

/-- app.js `isIntegerCell`: the trimmed cell matches `^[0-9]+$`. -/
def isIntegerCell (value : List Char) : Bool :=
  let t := jsTrim value
  !(t = []) && t.all isAsciiDigit

/-- Character-by-character loop of app.js `parseCsv`: `field` is the
field accumulated so far, `row` the fields of the current row, `rows`
the finished rows.  Inside quotes a doubled quote is a literal quote and
every other character (separators, newlines, carriage returns) is
content; outside quotes a comma ends the field, a newline ends the row
and a carriage return is ignored. -/
def csvLoop : List Char → Bool → List Char → List (List Char) →
    List (List (List Char)) → List (List (List Char))
  | [], _, field, row, rows =>
      if field.length > 0 || row.length > 0 then rows ++ [row ++ [field]] else rows
  | '"' :: '"' :: cs, true, field, row, rows => csvLoop cs true (field ++ ['"']) row rows
  | '"' :: cs, true, field, row, rows => csvLoop cs false field row rows
  | c :: cs, true, field, row, rows => csvLoop cs true (field ++ [c]) row rows
  | '"' :: cs, false, field, row, rows => csvLoop cs true field row rows
  | ',' :: cs, false, field, row, rows => csvLoop cs false [] (row ++ [field]) rows
  | '\n' :: cs, false, field, row, rows =>
      csvLoop cs false [] [] (rows ++ [row ++ [field]])
  | '\r' :: cs, false, field, row, rows => csvLoop cs false field row rows
  | c :: cs, false, field, row, rows => csvLoop cs false (field ++ [c]) row rows

/-- app.js `parseCsv`: run the loop from the empty state, emit the last
field and row if anything was started, and trim every cell. -/
def parseCsv (text : List Char) : List (List (List Char)) :=
  (csvLoop text false [] [] []).map (fun r => r.map jsTrim)

/-- Fractional part `(?:\.\d+)?` of the percent regex: on a leading dot
followed by at least one digit it consumes them, on a dot without a
digit the whole match fails (the remaining `\s*%?$` cannot match a dot),
otherwise nothing is consumed. -/
def percentFrac (r1 : List Char) : Option (List Char × List Char) :=
  match r1 with
  | '.' :: r2 =>
    if r2.takeWhile isAsciiDigit = [] then none
    else some (r2.takeWhile isAsciiDigit, r2.dropWhile isAsciiDigit)
  | _ => some ([], r1)

/-- Tail `\s*%?$` of the percent regex applied after the digit groups:
skip whitespace, skip one optional percent sign, and require the end of
the string. -/
def percentTail (neg : Bool) (ip fp r2 : List Char) :
    Option (Bool × List Char × List Char) :=
  if (match r2.dropWhile isJsWhitespace with
      | '%' :: r => r
      | r3 => r3) = []
  then some (neg, ip, fp) else none

/-- Body of the regex `^(-?\d+(?:\.\d+)?)\s*%?$` after the optional
sign: one or more digits, the optional fraction, then the tail. -/
def percentBody (neg : Bool) (s1 : List Char) :
    Option (Bool × List Char × List Char) :=
  if s1.takeWhile isAsciiDigit = [] then none
  else
    match percentFrac (s1.dropWhile isAsciiDigit) with
    | none => none
    | some (fp, r2) => percentTail neg (s1.takeWhile isAsciiDigit) fp r2

/-- Matching of `^(-?\d+(?:\.\d+)?)\s*%?$` against the trimmed cell. -/
def percentRegexMatch (s : List Char) : Option (Bool × List Char × List Char) :=
  match s with
  | '-' :: r => percentBody true r
  | _ => percentBody false s

/-- app.js `parsePercentCell`: `null`/`undefined` and the empty trimmed
string give the fallback; otherwise the cell must match the percent
regex and its captured group is parsed as a decimal number. -/
def parsePercentCell (cell : Option (List Char)) (fallback : Option ℚ) : Option ℚ :=
  match cell with
  | none => fallback
  | some c =>
    let s := jsTrim c
    if s = [] then fallback
    else
      match percentRegexMatch s with
      | none => fallback
      | some (neg, ip, fp) => some (signVal neg (decValue ip fp))

/-- Exponent digits of a float literal: optional sign then digits; an
exponent without digits contributes nothing (the prefix parse stops
before the `e`). -/
def expDigits (l : List Char) : ℤ :=
  let neg : Bool := match l with | '-' :: _ => true | _ => false
  let r : List Char := match l with | '-' :: r => r | '+' :: r => r | _ => l
  let d := r.takeWhile isAsciiDigit
  if d = [] then 0 else if neg then -(natOfDigits d : ℤ) else (natOfDigits d : ℤ)

/-- Exponent part `e`/`E` of a float literal, 0 when absent or invalid. -/
def expPart (l : List Char) : ℤ :=
  match l with
  | 'e' :: rest => expDigits rest
  | 'E' :: rest => expDigits rest
  | _ => 0

/-- JavaScript `parseFloat`, restricted to finite results: parses the
longest numeric prefix (optional sign, digits with optional fraction or
a fraction alone, optional exponent).  `none` stands for `NaN` (no
numeric prefix) and for the literal `Infinity` (non-finite). -/
def jsParseFloatFinite (s : List Char) : Option ℚ :=
  let s0 := s.dropWhile isJsWhitespace
  let neg : Bool := match s0 with | '-' :: _ => true | _ => false
  let s1 : List Char := match s0 with | '-' :: r => r | '+' :: r => r | _ => s0
  if ("Infinity".data).isPrefixOf s1 then none
  else
    let ip := s1.takeWhile isAsciiDigit
    let r1 := s1.dropWhile isAsciiDigit
    if ip = [] then
      match r1 with
      | '.' :: r2 =>
        let fp := r2.takeWhile isAsciiDigit
        if fp = [] then none
        else some (signVal neg (decValue [] fp * (10 : ℚ) ^ expPart (r2.dropWhile isAsciiDigit)))
      | _ => none
    else
      match r1 with
      | '.' :: r2 =>
        let fp := r2.takeWhile isAsciiDigit
        some (signVal neg (decValue ip fp * (10 : ℚ) ^ expPart (r2.dropWhile isAsciiDigit)))
      | _ => some (signVal neg (decValue ip [] * (10 : ℚ) ^ expPart r1))

/-- app.js `parseNumberCell`: `null`/`undefined` and the empty trimmed
string give the fallback, otherwise `parseFloat` of the trimmed cell if
that is finite, and the fallback if it is not. -/
def parseNumberCell (cell : Option (List Char)) (fallback : Option ℚ) : Option ℚ :=
  match cell with
  | none => fallback
  | some c =>
    let s := jsTrim c
    if s = [] then fallback
    else
      match jsParseFloatFinite s with
      | some v => some v
      | none => fallback

/-- Lower-case an ASCII letter, used for the case-insensitive regex. -/
def asciiLower (c : Char) : Char :=
  if 'A' ≤ c && c ≤ 'Z' then Char.ofNat (c.toNat + 32) else c

/-- Case-insensitive prefix test against an already lower-case pattern,
the way the `i` flag compares characters. -/
def ciPrefixB : List Char → List Char → Bool
  | [], _ => true
  | _ :: _, [] => false
  | p :: ps, c :: cs => (asciiLower c = p) && ciPrefixB ps cs

/-- app.js `isNavigableUrl`: the empty string is falsy and refused;
otherwise the trimmed string is tested against
`^(https?:\/\/|mailto:)/i` (the alternation is expanded). -/
def isNavigableUrl (s : List Char) : Bool :=
  if s = [] then false
  else
    let t := jsTrim s
    ciPrefixB ("http://".data) t || ciPrefixB ("https://".data) t ||
      ciPrefixB ("mailto:".data) t

/-- JavaScript `replaceAll` with a single-character pattern. -/
def replaceAllChar : List Char → Char → List Char → List Char
  | [], _, _ => []
  | x :: xs, c, rep => (if x = c then rep else [x]) ++ replaceAllChar xs c rep

/-- app.js `escapeHtml`: the five successive `replaceAll` calls, with
the ampersand first. -/
def escapeHtml (l : List Char) : List Char :=
  replaceAllChar
    (replaceAllChar
      (replaceAllChar
        (replaceAllChar
          (replaceAllChar l '&' ("&amp;".data))
          '<' ("&lt;".data))
        '>' ("&gt;".data))
      '"' ("&quot;".data))
    '\'' ("&#039;".data)

/-- Attempt of the regex `\[([^\]]+)\]\(([^)]+)\)` at one position:
`rest` is the text after the opening bracket; the label runs to the
first closing bracket, the target to the first closing parenthesis, and
both must be nonempty.  Returns label, target and the remaining text. -/
def mdLinkAt (rest : List Char) : Option (List Char × List Char × List Char) :=
  if rest.takeWhile (fun c => !(c = ']')) = [] then none
  else
    match rest.dropWhile (fun c => !(c = ']')) with
    | ']' :: '(' :: r2 =>
      if r2.takeWhile (fun c => !(c = ')')) = [] then none
      else
        match r2.dropWhile (fun c => !(c = ')')) with
        | ')' :: tail =>
          some (rest.takeWhile (fun c => !(c = ']')), r2.takeWhile (fun c => !(c = ')')), tail)
        | _ => none
    | _ => none

/-- Replacement callback of app.js `mdToSafeHtml`: a navigable target
becomes an anchor (the label is kept as it is, being already escaped),
anything else is rendered as the escaped label followed by the escaped
target in parentheses. -/
def mdLinkRender (label url : List Char) : List Char :=
  let href := jsTrim url
  if isNavigableUrl href then
    ("<a href=\"".data) ++ escapeHtml href ++
      ("\" target=\"_blank\" rel=\"noopener noreferrer\">".data) ++ label ++ ("</a>".data)
  else
    escapeHtml label ++ (" (".data) ++ escapeHtml href ++ (")".data)

/-- Scan of the global regex replace in app.js `mdToSafeHtml`: at every
opening bracket the engine tries the link pattern; on success the
replacement is emitted and scanning resumes after the match, on failure
scanning restarts one character later. -/
def mdLinkScan (l : List Char) : List Char :=
  match l with
  | [] => []
  | '[' :: rest =>
    (match h : mdLinkAt rest with
     | some (label, url, tail) => mdLinkRender label url ++ mdLinkScan tail
     | none => '[' :: mdLinkScan rest)
  | c :: rest => c :: mdLinkScan rest
termination_by l.length
decreasing_by
  · have hlt : tail.length < rest.length := by
      unfold mdLinkAt at h
      split at h
      · exact absurd h (by simp)
      · split at h
        case _ r1 r2 heq1 =>
          split at h
          · exact absurd h (by simp)
          · split at h
            case _ r3 tl2 heq3 =>
              have htail : tl2 = tail := congrArg (fun o => (o.getD ([], [], [])).2.2) h
              subst htail
              have e1 : rest.takeWhile (fun c => !(c = ']')) ++
                  rest.dropWhile (fun c => !(c = ']')) = rest :=
                List.takeWhile_append_dropWhile ..
              have e2 : r2.takeWhile (fun c => !(c = ')')) ++
                  r2.dropWhile (fun c => !(c = ')')) = r2 :=
                List.takeWhile_append_dropWhile ..
              have l1 : r2.length = (r2.takeWhile (fun c => !(c = ')'))).length +
                  (tl2.length + 1) := by
                conv_lhs => rw [← e2]
                simp [heq3]
              have l2 : rest.length = (rest.takeWhile (fun c => !(c = ']'))).length +
                  (r2.length + 2) := by
                conv_lhs => rw [← e1]
                simp [heq1]
              omega
            case _ =>
              exact absurd h (by simp)
        case _ =>
          exact absurd h (by simp)
    simp only [List.length_cons]
    exact Nat.lt_succ_of_lt hlt
  · simp
  · simp

/-- app.js `mdToSafeHtml`: escape everything, convert markdown links,
then turn newlines into `<br>`. -/
def mdToSafeHtml (input : List Char) : List Char :=
  replaceAllChar (mdLinkScan (escapeHtml input)) '\n' ("<br>".data)

/-- Regex `^"(.*)"$` replacement by the capture: the quotes are removed
when the cell starts and ends with distinct quote characters and the
interior contains no line terminator (the dot does not match those);
otherwise the cell is unchanged. -/
def stripOuterQuotes (l : List Char) : List Char :=
  match l with
  | '"' :: rest =>
    if rest.getLast? = some '"' && rest.dropLast.all (fun c => !(isLineTerm c)) then
      rest.dropLast
    else l
  | _ => l

/-- A parsed row: the list of its cells. -/
abbrev Row := List (List Char)

/-- An item of a section, as built by app.js `rowsToSections`. -/
structure Item where
  name : List Char
  linkOrText : List Char
  isUrl : Bool
  x : ℚ
  y : ℚ
  color : List Char
  radius : Option ℚ
deriving DecidableEq

/-- A section, as built by app.js `rowsToSections`. -/
structure Section where
  id : ℕ
  imageUrl : List Char
  title : List Char
  subtitle : List Char
  scalePercent : Option ℚ
  titleYOffsetPx : Option ℚ
  items : List Item
deriving DecidableEq

/-- JavaScript indexing `r[i]` into a row: `none` when the index is
out of range (the `undefined` value). -/
def jsCell (r : Row) (i : ℕ) : Option (List Char) :=
  List.get? r i

/-- Section constructed from a section row (`a` is the trimmed first
cell, all digits): fields are positional with the documented defaults,
and the image cell gets the extra outer-quote stripping. -/
def sectionOfRow (a : List Char) (r : Row) : Section :=
  { id := natOfDigits a
    imageUrl := jsTrim (stripOuterQuotes ((jsCell r 1).getD []))
    title := jsTrim ((jsCell r 2).getD [])
    subtitle := jsTrim ((jsCell r 3).getD [])
    scalePercent := parsePercentCell (jsCell r 4) (some 100)
    titleYOffsetPx := parseNumberCell (jsCell r 5) (some 0)
    items := [] }

/-- Item constructed from an item row (`a` is the trimmed, nonempty,
non-numeric first cell); `none` when the x or y cell does not parse to
a finite number (the row is dropped).  The content cell gets the extra
outer-quote stripping; the color defaults to green both when the cell
is missing and when it is empty. -/
def itemOfRow (a : List Char) (r : Row) : Option Item :=
  let rawLinkOrText := jsTrim (stripOuterQuotes ((jsCell r 1).getD []))
  match parseNumberCell (jsCell r 2) none, parseNumberCell (jsCell r 3) none with
  | some x, some y =>
    some
      { name := a
        linkOrText := rawLinkOrText
        isUrl := isNavigableUrl rawLinkOrText
        x := x
        y := y
        color :=
          (let c0 := jsTrim ((jsCell r 4).getD ("green".data))
           if c0 = [] then "green".data else c0)
        radius := parseNumberCell (jsCell r 5) (some 15) }
  | _, _ => none

/-- One step of the app.js `rowsToSections` loop.  The state is the
pair of the finished sections and the current section; the current
section is the one items are appended to, and is moved to the finished
list when the next section row arrives (in the source the section is
pushed on creation and mutated in place, which is observationally the
same ordering). -/
def buildStep (st : List Section × Option Section) (r : Row) :
    List Section × Option Section :=
  let a := jsTrim ((jsCell r 0).getD [])
  if a = [] then st
  else if isIntegerCell a then (st.1 ++ st.2.toList, some (sectionOfRow a r))
  else
    match st.2 with
    | none => st
    | some s =>
      match itemOfRow a r with
      | some it => (st.1, some { s with items := s.items ++ [it] })
      | none => st

/-- app.js `rowsToSections`: fold the rows and flush the last current
section. -/
def rowsToSections (rows : List Row) : List Section :=
  let st := rows.foldl buildStep ([], none)
  st.1 ++ st.2.toList

/-- Per-section popup state of app.js `createSectionEl`: the `hidden`
class (negated), the `pinned` flag and `lastPopupPos`, the intrinsic
anchor of the content currently loaded in the popup. -/
structure PopupState where
  visible : Bool
  pinned : Bool
  lastPos : Option (ℚ × ℚ)
deriving DecidableEq

/-- Popup state when a section is created: the popup carries the
`hidden` class, is not pinned and has no recorded anchor. -/
def initialPopupState : PopupState :=
  { visible := false, pinned := false, lastPos := none }

/-- Click handler of a text marker at intrinsic position `pos`
(app.js lines 405 to 422): when the popup is hidden or shows another
marker, it is shown and pinned (and the anchor recorded by `show`);
when it already shows this marker, the pin is toggled and toggling it
off hides the popup at once. -/
def clickMarker (st : PopupState) (pos : ℚ × ℚ) : PopupState :=
  let sameMarker : Bool := st.lastPos = some pos
  if !st.visible || !sameMarker then
    { visible := true, pinned := true, lastPos := some pos }
  else
    let p := !st.pinned
    { visible := if p then st.visible else false, pinned := p, lastPos := st.lastPos }

/-! Specification-side definitions, written from the wording of the
specification rather than from the code, used to state the claims. -/

/-- A string contains none of the characters rewritten by the HTML
escaping. -/
@[reducible] def htmlSafe (l : List Char) : Prop :=
  ∀ c ∈ l, c ≠ '&' ∧ c ≠ '<' ∧ c ≠ '>' ∧ c ≠ '"' ∧ c ≠ '\''

/-- The string `t` begins with the prefix `p` when compared after
lower-casing ASCII letters (the specification notion of a
case-insensitive prefix; `p` is given in lower case). -/
def startsWithCI (p t : List Char) : Prop :=
  (t.take p.length).map asciiLower = p

/-- Specification notion for the percentage-or-number coercion: the
trimmed cell `t` is a signed decimal numeral (optional minus sign, one
or more digits, optional dot followed by one or more digits) optionally
followed by whitespace and a trailing percent sign, and `v` is the
value of that numeral. -/
def PercentForm (t : List Char) (v : ℚ) : Prop :=
  ∃ (neg : Bool) (ip fp w : List Char) (pct : Bool),
    ip ≠ [] ∧ (∀ c ∈ ip, isAsciiDigit c = true) ∧ (∀ c ∈ fp, isAsciiDigit c = true) ∧
    (∀ c ∈ w, isJsWhitespace c = true) ∧
    t = (if neg then ['-'] else []) ++
      (ip ++ ((if fp = [] then [] else '.' :: fp) ++ (w ++ (if pct then ['%'] else [])))) ∧
    v = signVal neg (decValue ip fp)

/-- Header data of a section: every field except the item list. -/
def headerOf (s : Section) : ℕ × List Char × List Char × List Char × Option ℚ × Option ℚ :=
  (s.id, s.imageUrl, s.title, s.subtitle, s.scalePercent, s.titleYOffsetPx)

/-! Helper lemmas about lists, trimming and replacement. -/

theorem takeWhile_append_all {α : Type} {p : α → Bool} {a : List α} (b : List α)
    (h : ∀ c ∈ a, p c = true) :
    (a ++ b).takeWhile p = a ++ b.takeWhile p := by
  induction a with
  | nil => simp
  | cons x xs ih =>
    have hx : p x = true := h x (by simp)
    simp only [List.cons_append, List.takeWhile_cons_of_pos hx, List.cons.injEq, true_and]
    exact ih (fun c hc => h c (by simp [hc]))

theorem dropWhile_append_all {α : Type} {p : α → Bool} {a : List α} (b : List α)
    (h : ∀ c ∈ a, p c = true) :
    (a ++ b).dropWhile p = b.dropWhile p := by
  induction a with
  | nil => simp
  | cons x xs ih =>
    have hx : p x = true := h x (by simp)
    simp only [List.cons_append, List.dropWhile_cons_of_pos hx]
    exact ih (fun c hc => h c (by simp [hc]))

theorem takeWhile_eq_nil_of_head {α : Type} {p : α → Bool} {x : α} (xs : List α)
    (h : p x = false) : (x :: xs).takeWhile p = [] :=
  List.takeWhile_cons_of_neg (by simp [h])

theorem dropWhile_eq_self_of_head {α : Type} {p : α → Bool} {x : α} (xs : List α)
    (h : p x = false) : (x :: xs).dropWhile p = x :: xs :=
  List.dropWhile_cons_of_neg (by simp [h])

theorem dropWhile_all_neg {α : Type} {p : α → Bool} {l : List α}
    (h : ∀ c ∈ l, p c = false) : l.dropWhile p = l := by
  induction l with
  | nil => rfl
  | cons x xs _ =>
    exact dropWhile_eq_self_of_head xs (h x (by simp))

theorem all_takeWhile {α : Type} {p : α → Bool} {l : List α} :
    ∀ c ∈ l.takeWhile p, p c = true := by
  induction l with
  | nil => simp
  | cons x xs ih =>
    intro c hc
    by_cases hx : p x = true
    · rw [List.takeWhile_cons_of_pos hx, List.mem_cons] at hc
      rcases hc with rfl | hc
      · exact hx
      · exact ih c hc
    · rw [List.takeWhile_cons_of_neg (by simpa using hx)] at hc
      exact absurd hc (by simp)

theorem mem_dropWhile {α : Type} {p : α → Bool} {l : List α} {c : α}
    (h : c ∈ l.dropWhile p) : c ∈ l := by
  induction l with
  | nil => simpa using h
  | cons x xs ih =>
    by_cases hx : p x = true
    · rw [List.dropWhile_cons_of_pos hx] at h
      exact List.mem_cons_of_mem x (ih h)
    · rwa [List.dropWhile_cons_of_neg (by simpa using hx)] at h

theorem mem_jsTrim {l : List Char} {c : Char} (h : c ∈ jsTrim l) : c ∈ l := by
  unfold jsTrim at h
  rw [List.mem_reverse] at h
  have h2 := mem_dropWhile h
  rw [List.mem_reverse] at h2
  exact mem_dropWhile h2

theorem count_dropWhile {α : Type} [DecidableEq α] {p : α → Bool} {c : α}
    (l : List α) (hc : p c = false) : (l.dropWhile p).count c = l.count c := by
  induction l with
  | nil => rfl
  | cons x xs ih =>
    by_cases hx : p x = true
    · have hne : x ≠ c := fun e => by rw [e, hc] at hx; exact Bool.noConfusion hx
      rw [List.dropWhile_cons_of_pos hx, ih, List.count_cons_of_ne (fun e => hne e.symm)]
    · rw [List.dropWhile_cons_of_neg (by simpa using hx)]

theorem count_jsTrim {c : Char} (l : List Char) (hc : isJsWhitespace c = false) :
    (jsTrim l).count c = l.count c := by
  unfold jsTrim
  rw [List.count_reverse, count_dropWhile _ hc, List.count_reverse, count_dropWhile _ hc]

theorem jsTrim_of_no_ws {l : List Char} (h : ∀ c ∈ l, isJsWhitespace c = false) :
    jsTrim l = l := by
  unfold jsTrim
  rw [dropWhile_all_neg h, dropWhile_all_neg (by intro c hc; exact h c (List.mem_reverse.mp hc)),
    List.reverse_reverse]

theorem jsTrim_quote_ends (l : List Char) :
    jsTrim ('"' :: (l ++ ['"'])) = '"' :: (l ++ ['"']) := by
  unfold jsTrim
  rw [dropWhile_eq_self_of_head _ (by decide)]
  have hrev : ('"' :: (l ++ ['"'])).reverse = '"' :: (l.reverse ++ ['"']) := by
    simp
  rw [hrev, dropWhile_eq_self_of_head _ (by decide), ← hrev, List.reverse_reverse]

theorem replaceAllChar_append (a b : List Char) (c : Char) (rep : List Char) :
    replaceAllChar (a ++ b) c rep = replaceAllChar a c rep ++ replaceAllChar b c rep := by
  induction a with
  | nil => rfl
  | cons x xs ih => simp [replaceAllChar, ih]

theorem replaceAllChar_of_not_mem {l : List Char} {c : Char} (rep : List Char)
    (h : c ∉ l) : replaceAllChar l c rep = l := by
  induction l with
  | nil => rfl
  | cons x xs ih =>
    have hx : x ≠ c := fun e => h (e ▸ List.mem_cons_self x xs)
    simp only [replaceAllChar, if_neg hx, List.singleton_append, List.cons.injEq, true_and]
    exact ih (fun hm => h (List.mem_cons_of_mem x hm))

theorem escapeHtml_append (a b : List Char) :
    escapeHtml (a ++ b) = escapeHtml a ++ escapeHtml b := by
  unfold escapeHtml
  rw [replaceAllChar_append, replaceAllChar_append, replaceAllChar_append,
    replaceAllChar_append, replaceAllChar_append]

theorem escapeHtml_of_safe {l : List Char} (h : htmlSafe l) : escapeHtml l = l := by
  unfold escapeHtml
  rw [replaceAllChar_of_not_mem _ (fun hm => ((h _ hm).1) rfl),
    replaceAllChar_of_not_mem _ (fun hm => ((h _ hm).2.1) rfl),
    replaceAllChar_of_not_mem _ (fun hm => ((h _ hm).2.2.1) rfl),
    replaceAllChar_of_not_mem _ (fun hm => ((h _ hm).2.2.2.1) rfl),
    replaceAllChar_of_not_mem _ (fun hm => ((h _ hm).2.2.2.2) rfl)]

/-! Stepping lemmas for the CSV loop. -/

theorem csvLoop_open_quote (cs : List Char) (field row rows) :
    csvLoop ('"' :: cs) false field row rows = csvLoop cs true field row rows := by
  rw [csvLoop.eq_def]
  split <;> try simp_all
  all_goals (rename_i heq; obtain ⟨he, hcs⟩ := heq; subst he; subst hcs; simp_all)

theorem csvLoop_comma (cs : List Char) (field row rows) :
    csvLoop (',' :: cs) false field row rows = csvLoop cs false [] (row ++ [field]) rows := by
  rw [csvLoop.eq_def]
  split <;> try simp_all
  all_goals (rename_i heq; obtain ⟨he, hcs⟩ := heq; subst he; subst hcs; simp_all)

theorem csvLoop_newline (cs : List Char) (field row rows) :
    csvLoop ('\n' :: cs) false field row rows =
      csvLoop cs false [] [] (rows ++ [row ++ [field]]) := by
  rw [csvLoop.eq_def]
  split <;> try simp_all
  all_goals (rename_i heq; obtain ⟨he, hcs⟩ := heq; subst he; subst hcs; simp_all)

theorem csvLoop_cr (cs : List Char) (field row rows) :
    csvLoop ('\r' :: cs) false field row rows = csvLoop cs false field row rows := by
  rw [csvLoop.eq_def]
  split <;> try simp_all
  all_goals (rename_i heq; obtain ⟨he, hcs⟩ := heq; subst he; subst hcs; simp_all)

theorem csvLoop_other {c : Char} (h1 : c ≠ '"') (h2 : c ≠ ',') (h3 : c ≠ '\n')
    (h4 : c ≠ '\r') (cs : List Char) (field row rows) :
    csvLoop (c :: cs) false field row rows = csvLoop cs false (field ++ [c]) row rows := by
  rw [csvLoop.eq_def]
  split <;> simp_all

theorem csvLoop_quoted_cons {c : Char} (hc : c ≠ '"') (cs : List Char) (field row rows) :
    csvLoop (c :: cs) true field row rows = csvLoop cs true (field ++ [c]) row rows := by
  rw [csvLoop.eq_def]
  split <;> simp_all

theorem csvLoop_dquote (cs : List Char) (field row rows) :
    csvLoop ('"' :: '"' :: cs) true field row rows =
      csvLoop cs true (field ++ ['"']) row rows := rfl

theorem csvLoop_quote_nil (field : List Char) (row rows) :
    csvLoop ['"'] true field row rows =
      (if field.length > 0 || row.length > 0 then rows ++ [row ++ [field]] else rows) := rfl

theorem csvLoop_quoted_run {a : List Char} (ha : ∀ x ∈ a, x ≠ '"') :
    ∀ cs field row rows,
      csvLoop (a ++ cs) true field row rows = csvLoop cs true (field ++ a) row rows := by
  induction a with
  | nil => intro cs field row rows; simp
  | cons x xs ih =>
    intro cs field row rows
    rw [List.cons_append, csvLoop_quoted_cons (ha x (by simp)) _ _ _ _,
      ih (fun y hy => ha y (by simp [hy])) _ _ _ _]
    simp

/-- Invariant of the loop on quote-free input: staying in the unquoted
state, no carriage return ever enters a field. -/
theorem csvLoop_no_cr {cs : List Char} (h : ∀ x ∈ cs, x ≠ '"') :
    ∀ field row rows, '\r' ∉ field → (∀ f ∈ row, '\r' ∉ f) →
      (∀ r ∈ rows, ∀ f ∈ r, '\r' ∉ f) →
      ∀ r ∈ csvLoop cs false field row rows, ∀ f ∈ r, '\r' ∉ f := by
  induction cs with
  | nil =>
    intro field row rows hf hrow hrows r hr f hfr
    rw [csvLoop.eq_def] at hr
    dsimp only at hr
    split at hr
    · rw [List.mem_append] at hr
      rcases hr with hr | hr
      · exact hrows r hr f hfr
      · rw [List.mem_singleton] at hr
        subst hr
        rw [List.mem_append] at hfr
        rcases hfr with hfr | hfr
        · exact hrow f hfr
        · rw [List.mem_singleton] at hfr
          subst hfr
          exact hf
    · exact hrows r hr f hfr
  | cons x cs ih =>
    intro field row rows hf hrow hrows
    have hx : x ≠ '"' := h x (by simp)
    have h2 : ∀ y ∈ cs, y ≠ '"' := fun y hy => h y (by simp [hy])
    by_cases hcm : x = ','
    · subst hcm
      rw [csvLoop_comma]
      refine ih h2 [] (row ++ [field]) rows (by simp) ?_ hrows
      intro f hfm
      rw [List.mem_append] at hfm
      rcases hfm with hfm | hfm
      · exact hrow f hfm
      · rw [List.mem_singleton] at hfm
        subst hfm
        exact hf
    · by_cases hnl : x = '\n'
      · subst hnl
        rw [csvLoop_newline]
        refine ih h2 [] [] (rows ++ [row ++ [field]]) (by simp) (by simp) ?_
        intro r hrm f hfm
        rw [List.mem_append] at hrm
        rcases hrm with hrm | hrm
        · exact hrows r hrm f hfm
        · rw [List.mem_singleton] at hrm
          subst hrm
          rw [List.mem_append] at hfm
          rcases hfm with hfm | hfm
          · exact hrow f hfm
          · rw [List.mem_singleton] at hfm
            subst hfm
            exact hf
      · by_cases hcr : x = '\r'
        · subst hcr
          rw [csvLoop_cr]
          exact ih h2 field row rows hf hrow hrows
        · rw [csvLoop_other hx hcm hnl hcr]
          refine ih h2 (field ++ [x]) row rows ?_ hrow hrows
          intro hmem
          rw [List.mem_append] at hmem
          rcases hmem with hmem | hmem
          · exact hf hmem
          · rw [List.mem_singleton] at hmem
            exact hcr hmem.symm

/-! Stepping lemmas for the markdown-link scan. -/

theorem mdLinkScan_cons_of_ne {c : Char} (hc : c ≠ '[') (l : List Char) :
    mdLinkScan (c :: l) = c :: mdLinkScan l := by
  rw [mdLinkScan.eq_def]
  split <;> simp_all

theorem mdLinkScan_append_no_bracket {a : List Char} (ha : ∀ x ∈ a, x ≠ '[')
    (b : List Char) : mdLinkScan (a ++ b) = a ++ mdLinkScan b := by
  induction a with
  | nil => simp
  | cons x xs ih =>
    rw [List.cons_append, mdLinkScan_cons_of_ne (ha x (by simp)), ih
      (fun y hy => ha y (by simp [hy])), List.cons_append]

theorem mdLinkAt_match {label url : List Char} (b : List Char) (hl1 : label ≠ [])
    (hl2 : ∀ x ∈ label, x ≠ ']') (hu1 : url ≠ []) (hu2 : ∀ x ∈ url, x ≠ ')') :
    mdLinkAt (label ++ ']' :: '(' :: (url ++ ')' :: b)) = some (label, url, b) := by
  unfold mdLinkAt
  have ht : (label ++ ']' :: '(' :: (url ++ ')' :: b)).takeWhile (fun c => !(c = ']'))
      = label := by
    rw [takeWhile_append_all _ (fun c hc => by simpa using hl2 c hc),
      takeWhile_eq_nil_of_head _ (by decide), List.append_nil]
  have hd : (label ++ ']' :: '(' :: (url ++ ')' :: b)).dropWhile (fun c => !(c = ']'))
      = ']' :: '(' :: (url ++ ')' :: b) := by
    rw [dropWhile_append_all _ (fun c hc => by simpa using hl2 c hc),
      dropWhile_eq_self_of_head _ (by decide)]
  have hu : (url ++ ')' :: b).takeWhile (fun c => !(c = ')')) = url := by
    rw [takeWhile_append_all _ (fun c hc => by simpa using hu2 c hc),
      takeWhile_eq_nil_of_head _ (by decide), List.append_nil]
  have hv : (url ++ ')' :: b).dropWhile (fun c => !(c = ')')) = ')' :: b := by
    rw [dropWhile_append_all _ (fun c hc => by simpa using hu2 c hc),
      dropWhile_eq_self_of_head _ (by decide)]
  rw [ht, hd, if_neg hl1]
  simp [hu, hv, hu1]

theorem mdLinkScan_link {label url : List Char} (b : List Char) (hl1 : label ≠ [])
    (hl2 : ∀ x ∈ label, x ≠ ']') (hu1 : url ≠ []) (hu2 : ∀ x ∈ url, x ≠ ')') :
    mdLinkScan ('[' :: (label ++ ']' :: '(' :: (url ++ ')' :: b)))
      = mdLinkRender label url ++ mdLinkScan b := by
  rw [mdLinkScan.eq_def]
  split
  · simp_all
  · rename_i heq
    rw [List.cons.injEq] at heq
    obtain ⟨-, hrest⟩ := heq
    subst hrest
    rw [mdLinkAt_match b hl1 hl2 hu1 hu2]
  · rename_i heq
    obtain ⟨he, -⟩ := heq
    simp_all

/-! Lemmas about quote stripping, prefix tests and the model builder. -/

theorem stripOuterQuotes_quoted {mid : List Char} (hm : ∀ c ∈ mid, isLineTerm c = false) :
    stripOuterQuotes ('"' :: (mid ++ ['"'])) = mid := by
  have h1 : (mid ++ ['"']).getLast? = some '"' := List.getLast?_concat ..
  have h2 : (mid ++ ['"']).dropLast = mid := List.dropLast_concat ..
  have h3 : mid.all (fun c => !(isLineTerm c)) = true := by
    rw [List.all_eq_true]
    intro c hc
    simp [hm c hc]
  unfold stripOuterQuotes
  simp [h1, h2, h3]

theorem ciPrefixB_iff (p : List Char) : ∀ t : List Char,
    ciPrefixB p t = true ↔ (t.take p.length).map asciiLower = p := by
  induction p with
  | nil => intro t; simp [ciPrefixB]
  | cons x xs ih =>
    intro t
    cases t with
    | nil => simp [ciPrefixB]
    | cons c cs => simp [ciPrefixB, ih cs]

theorem headerOf_append_item (s : Section) (it : Item) :
    headerOf { s with items := s.items ++ [it] } = headerOf s := rfl

theorem buildStep_headers (st : List Section × Option Section) (r : Row) :
    ((buildStep st r).1 ++ (buildStep st r).2.toList).map headerOf
      = (st.1 ++ st.2.toList).map headerOf ++
        (if isIntegerCell (jsTrim ((jsCell r 0).getD [])) then
          [headerOf (sectionOfRow (jsTrim ((jsCell r 0).getD [])) r)] else []) := by
  by_cases ha : jsTrim ((jsCell r 0).getD []) = []
  · have hint : isIntegerCell ([] : List Char) = false := by decide
    simp [buildStep, ha, hint]
  · by_cases hint : isIntegerCell (jsTrim ((jsCell r 0).getD [])) = true
    · simp [buildStep, ha, hint]
    · have hint2 : isIntegerCell (jsTrim ((jsCell r 0).getD [])) = false := by
        simpa using hint
      rcases hst : st.2 with _ | s
      · simp [buildStep, ha, hint2, hst]
      · rcases hit : itemOfRow (jsTrim ((jsCell r 0).getD [])) r with _ | it
        · simp [buildStep, ha, hint2, hst, hit]
        · simp [buildStep, ha, hint2, hst, hit, headerOf]

theorem buildState_headers (rows : List Row) : ∀ st : List Section × Option Section,
    ((rows.foldl buildStep st).1 ++ (rows.foldl buildStep st).2.toList).map headerOf
      = (st.1 ++ st.2.toList).map headerOf ++
        (rows.filter (fun r => isIntegerCell (jsTrim ((jsCell r 0).getD [])))).map
          (fun r => headerOf (sectionOfRow (jsTrim ((jsCell r 0).getD [])) r)) := by
  induction rows with
  | nil => intro st; simp
  | cons r rest ih =>
    intro st
    rw [List.foldl_cons, ih (buildStep st r), buildStep_headers st r, List.filter_cons]
    by_cases h : isIntegerCell (jsTrim ((jsCell r 0).getD [])) = true
    · simp [h]
    · have h2 : isIntegerCell (jsTrim ((jsCell r 0).getD [])) = false := by simpa using h
      simp [h2]

theorem buildStep_eq_of_bad_item (st : List Section × Option Section) (r : Row)
    (h1 : isIntegerCell (jsTrim ((jsCell r 0).getD [])) = false)
    (h2 : parseNumberCell (jsCell r 2) none = none ∨ parseNumberCell (jsCell r 3) none = none) :
    buildStep st r = st := by
  have hit : itemOfRow (jsTrim ((jsCell r 0).getD [])) r = none := by
    rcases h2 with h2 | h2
    · simp [itemOfRow, h2]
    · rcases hx : parseNumberCell (jsCell r 2) none with _ | xv
      · simp [itemOfRow, hx]
      · simp [itemOfRow, hx, h2]
  by_cases ha : jsTrim ((jsCell r 0).getD []) = []
  · simp [buildStep, ha]
  · rcases hst : st.2 with _ | s
    · have : st = (st.1, none) := by rw [← hst]
      rw [this]
      simp [buildStep, ha, h1]
    · have : st = (st.1, some s) := by rw [← hst]
      rw [this]
      simp [buildStep, ha, h1, hit]

theorem buildStep_none (l : List Section) (r : Row)
    (h : isIntegerCell (jsTrim ((jsCell r 0).getD [])) = false) :
    buildStep (l, none) r = (l, none) := by
  by_cases ha : jsTrim ((jsCell r 0).getD []) = [] <;> simp [buildStep, ha, h]

theorem buildState_orphans {orphans : List Row}
    (h : ∀ r ∈ orphans, isIntegerCell (jsTrim ((jsCell r 0).getD [])) = false) :
    orphans.foldl buildStep ([], none) = ([], none) := by
  induction orphans with
  | nil => rfl
  | cons r rest ih =>
    rw [List.foldl_cons, buildStep_none [] r (h r (by simp))]
    exact ih (fun q hq => h q (by simp [hq]))

/-! Lemmas about the percent regex. -/

theorem ws_not_digit {c : Char} (h : isJsWhitespace c = true) : isAsciiDigit c = false := by
  unfold isJsWhitespace at h
  simp only [Bool.or_eq_true, decide_eq_true_eq] at h
  rcases h with ((((((h|h)|h)|h)|h)|h)|h)|h <;> subst h <;> decide

theorem ws_ne_dot {c : Char} (h : isJsWhitespace c = true) : c ≠ '.' := by
  intro e
  subst e
  exact absurd h (by decide)

theorem ws_ne_minus {c : Char} (h : isJsWhitespace c = true) : c ≠ '-' := by
  intro e
  subst e
  exact absurd h (by decide)

theorem digit_ne_minus {c : Char} (h : isAsciiDigit c = true) : c ≠ '-' := by
  intro e
  subst e
  exact absurd h (by decide)

theorem tail_no_digit {w : List Char} (hw : ∀ c ∈ w, isJsWhitespace c = true) (pct : Bool) :
    (w ++ (if pct then ['%'] else [])).takeWhile isAsciiDigit = [] ∧
    (w ++ (if pct then ['%'] else [])).dropWhile isAsciiDigit
      = w ++ (if pct then ['%'] else []) := by
  cases w with
  | nil => cases pct <;> simp <;> decide
  | cons c w2 =>
    have hd := ws_not_digit (hw c (by simp))
    exact ⟨takeWhile_eq_nil_of_head _ hd, dropWhile_eq_self_of_head _ hd⟩

theorem percentFrac_cons_ne {c : Char} (hc : c ≠ '.') (r : List Char) :
    percentFrac (c :: r) = some ([], c :: r) := by
  rw [percentFrac.eq_def]
  split <;> simp_all

theorem percentFrac_sound {r1 fp r2 : List Char} (h : percentFrac r1 = some (fp, r2)) :
    (fp = [] ∧ r1 = r2) ∨
    (fp ≠ [] ∧ (∀ c ∈ fp, isAsciiDigit c = true) ∧ r1 = '.' :: (fp ++ r2)) := by
  rw [percentFrac.eq_def] at h
  split at h
  · rename_i rr
    split at h
    · exact absurd h (by simp)
    · rename_i hfp
      rw [Option.some.injEq, Prod.mk.injEq] at h
      obtain ⟨h1, h2⟩ := h
      right
      subst h1
      subst h2
      exact ⟨hfp, all_takeWhile, by rw [List.takeWhile_append_dropWhile]⟩
  · rw [Option.some.injEq, Prod.mk.injEq] at h
    obtain ⟨h1, h2⟩ := h
    subst h1
    subst h2
    exact Or.inl ⟨rfl, rfl⟩

theorem percentFrac_dot (r2 : List Char) :
    percentFrac ('.' :: r2) = (if r2.takeWhile isAsciiDigit = [] then none
      else some (r2.takeWhile isAsciiDigit, r2.dropWhile isAsciiDigit)) := rfl

theorem percentTail_of_ws {w : List Char} (hw : ∀ c ∈ w, isJsWhitespace c = true)
    (neg : Bool) (ip fp : List Char) (pct : Bool) :
    percentTail neg ip fp (w ++ (if pct then ['%'] else [])) = some (neg, ip, fp) := by
  have hpct : (w ++ (if pct then ['%'] else [])).dropWhile isJsWhitespace
      = (if pct then ['%'] else []) := by
    rw [dropWhile_append_all _ hw]
    cases pct
    · simp
    · simp only [if_pos]
      exact dropWhile_eq_self_of_head _ (by decide)
  unfold percentTail
  rw [hpct]
  cases pct
  · simp
  · simp

theorem percentTail_sound {neg : Bool} {ip0 fp0 r2 : List Char} {nr : Bool}
    {ip fp : List Char} (h : percentTail neg ip0 fp0 r2 = some (nr, ip, fp)) :
    nr = neg ∧ ip = ip0 ∧ fp = fp0 ∧
    (r2.dropWhile isJsWhitespace = ['%'] ∨ r2.dropWhile isJsWhitespace = []) := by
  unfold percentTail at h
  split at h
  · rename_i hcond
    rw [Option.some.injEq, Prod.mk.injEq, Prod.mk.injEq] at h
    obtain ⟨h1, h2, h3⟩ := h
    refine ⟨h1.symm, h2.symm, h3.symm, ?_⟩
    split at hcond
    · rename_i r hr3
      left
      rw [hr3, hcond]
    · right
      exact hcond
  · exact absurd h (by simp)

theorem percentBody_of_form (neg : Bool) {ip fp w : List Char} {pct : Bool}
    (hip : ip ≠ []) (hipd : ∀ c ∈ ip, isAsciiDigit c = true)
    (hfpd : ∀ c ∈ fp, isAsciiDigit c = true) (hw : ∀ c ∈ w, isJsWhitespace c = true) :
    percentBody neg
      (ip ++ ((if fp = [] then [] else '.' :: fp) ++ (w ++ (if pct then ['%'] else []))))
      = some (neg, ip, fp) := by
  have hrest : ((if fp = [] then [] else '.' :: fp) ++
        (w ++ (if pct then ['%'] else []))).takeWhile isAsciiDigit = [] ∧
      ((if fp = [] then [] else '.' :: fp) ++
        (w ++ (if pct then ['%'] else []))).dropWhile isAsciiDigit
        = (if fp = [] then [] else '.' :: fp) ++ (w ++ (if pct then ['%'] else [])) := by
    by_cases hfp : fp = []
    · simp only [hfp, if_pos, List.nil_append]
      exact tail_no_digit hw pct
    · simp only [hfp, if_neg, List.cons_append]
      exact ⟨takeWhile_eq_nil_of_head _ (by decide), dropWhile_eq_self_of_head _ (by decide)⟩
  have hf : percentFrac ((if fp = [] then [] else '.' :: fp) ++
        (w ++ (if pct then ['%'] else [])))
      = some (fp, w ++ (if pct then ['%'] else [])) := by
    by_cases hfp : fp = []
    · subst hfp
      simp only [if_pos, List.nil_append]
      cases w with
      | nil =>
        cases pct
        · simp [percentFrac]
        · simp only [if_pos, List.nil_append]
          exact percentFrac_cons_ne (by decide) _
      | cons c w2 => exact percentFrac_cons_ne (ws_ne_dot (hw c (by simp))) _
    · have htk : (fp ++ (w ++ (if pct then ['%'] else []))).takeWhile isAsciiDigit = fp := by
        rw [takeWhile_append_all _ hfpd, (tail_no_digit hw pct).1, List.append_nil]
      have hdp : (fp ++ (w ++ (if pct then ['%'] else []))).dropWhile isAsciiDigit
          = w ++ (if pct then ['%'] else []) := by
        rw [dropWhile_append_all _ hfpd, (tail_no_digit hw pct).2]
      rw [if_neg hfp, List.cons_append, percentFrac_dot, htk, hdp, if_neg hfp]
  simp only [percentBody]
  rw [takeWhile_append_all _ hipd, hrest.1, List.append_nil, if_neg hip,
    dropWhile_append_all _ hipd, hrest.2, hf]
  exact percentTail_of_ws hw neg ip fp pct

theorem percentRegexMatch_minus (r : List Char) :
    percentRegexMatch ('-' :: r) = percentBody true r := rfl

theorem percentRegexMatch_cons_ne {c : Char} (hc : c ≠ '-') (r : List Char) :
    percentRegexMatch (c :: r) = percentBody false (c :: r) := by
  rw [percentRegexMatch.eq_def]
  split <;> simp_all

theorem percentBody_sound {neg : Bool} {s1 : List Char} {nr : Bool} {ip fp : List Char}
    (h : percentBody neg s1 = some (nr, ip, fp)) :
    nr = neg ∧ ip ≠ [] ∧ (∀ c ∈ ip, isAsciiDigit c = true) ∧
    (∀ c ∈ fp, isAsciiDigit c = true) ∧
    ∃ (w : List Char) (pct : Bool), (∀ c ∈ w, isJsWhitespace c = true) ∧
      s1 = ip ++ ((if fp = [] then [] else '.' :: fp) ++
        (w ++ (if pct then ['%'] else []))) := by
  simp only [percentBody] at h
  split at h
  · exact absurd h (by simp)
  · rename_i hip
    split at h
    · exact absurd h (by simp)
    · rename_i fp2 r2 heqf
      obtain ⟨hn, hi, hf2, hpct⟩ := percentTail_sound h
      subst hn
      subst hi
      subst hf2
      refine ⟨rfl, hip, all_takeWhile, ?_, ?_⟩
      · rcases percentFrac_sound heqf with ⟨hfp, -⟩ | ⟨-, hd, -⟩
        · subst hfp
          simp
        · exact hd
      · have hr2 : r2 = r2.takeWhile isJsWhitespace ++ r2.dropWhile isJsWhitespace :=
          (List.takeWhile_append_dropWhile ..).symm
        have hw : ∀ c ∈ r2.takeWhile isJsWhitespace, isJsWhitespace c = true :=
          all_takeWhile
        have hs1 : s1 = s1.takeWhile isAsciiDigit ++ s1.dropWhile isAsciiDigit :=
          (List.takeWhile_append_dropWhile ..).symm
        rcases percentFrac_sound heqf with ⟨hfp, hr⟩ | ⟨hfp, -, hr⟩
        · subst hfp
          rcases hpct with hpct | hpct
          · refine ⟨r2.takeWhile isJsWhitespace, true, hw, ?_⟩
            conv_lhs => rw [hs1, hr, hr2, hpct]
            simp
          · refine ⟨r2.takeWhile isJsWhitespace, false, hw, ?_⟩
            conv_lhs => rw [hs1, hr, hr2, hpct]
            simp
        · rcases hpct with hpct | hpct
          · refine ⟨r2.takeWhile isJsWhitespace, true, hw, ?_⟩
            conv_lhs => rw [hs1, hr, hr2, hpct]
            simp [hfp]
          · refine ⟨r2.takeWhile isJsWhitespace, false, hw, ?_⟩
            conv_lhs => rw [hs1, hr, hr2, hpct]
            simp [hfp]

theorem percent_complete {t : List Char} {v : ℚ} (h : PercentForm t v) :
    ∃ neg ip fp, percentRegexMatch t = some (neg, ip, fp) ∧ signVal neg (decValue ip fp) = v := by
  obtain ⟨neg, ip, fp, w, pct, hip, hipd, hfpd, hw, ht, hv⟩ := h
  refine ⟨neg, ip, fp, ?_, hv.symm⟩
  subst ht
  cases neg with
  | true => exact percentBody_of_form true hip hipd hfpd hw
  | false =>
    rcases hi : ip with _ | ⟨d, ip2⟩
    · exact absurd hi hip
    · have hd : isAsciiDigit d = true := by
        subst hi
        exact hipd d (by simp)
      subst hi
      show percentRegexMatch (d :: (ip2 ++
        ((if fp = [] then [] else '.' :: fp) ++ (w ++ (if pct then ['%'] else [])))))
        = some (false, d :: ip2, fp)
      rw [percentRegexMatch_cons_ne (digit_ne_minus hd), ← List.cons_append]
      exact percentBody_of_form false hip hipd hfpd hw

theorem percent_sound {s : List Char} {nr : Bool} {ip fp : List Char}
    (h : percentRegexMatch s = some (nr, ip, fp)) :
    PercentForm s (signVal nr (decValue ip fp)) := by
  rcases s with _ | ⟨c, r⟩
  · have h0 : percentRegexMatch ([] : List Char) = none := rfl
    rw [h0] at h
    exact absurd h (by simp)
  · by_cases hc : c = '-'
    · subst hc
      rw [percentRegexMatch_minus] at h
      obtain ⟨hnr, hip, hipd, hfpd, w, pct, hw, heq⟩ := percentBody_sound h
      exact ⟨nr, ip, fp, w, pct, hip, hipd, hfpd, hw,
        by rw [heq, hnr]; simp, rfl⟩
    · rw [percentRegexMatch_cons_ne hc] at h
      obtain ⟨hnr, hip, hipd, hfpd, w, pct, hw, heq⟩ := percentBody_sound h
      exact ⟨nr, ip, fp, w, pct, hip, hipd, hfpd, hw,
        by rw [heq, hnr]; simp, rfl⟩

/-! Claim theorems. -/

/-- C1: every row whose first cell, after trimming, consists of one or
more ASCII digits starts exactly one new section, appended to the
output in input order and regardless of any preceding item rows; the
section headers (id as the decimal value of the first cell, image
reference, title, subtitle, scale percentage defaulting to 100, title
offset defaulting to 0) are mapped positionally from the row by
`sectionOfRow`, and no other row produces a section. -/
theorem rowsToSections_one_section_per_integer_row (rows : List Row) :
    (rowsToSections rows).map headerOf
      = (rows.filter (fun r => isIntegerCell (jsTrim ((jsCell r 0).getD [])))).map
          (fun r => headerOf (sectionOfRow (jsTrim ((jsCell r 0).getD [])) r)) := by
  have h := buildState_headers rows ([], none)
  simpa [rowsToSections] using h

/-- C2: content classification is a pure function of the content cell:
`isNavigableUrl` returns `true` exactly when the trimmed string begins
with `http://`, `https://` or `mailto:` compared case-insensitively,
and returns `false` on every other string, the empty string included. -/
theorem isNavigableUrl_iff_ci_prefixes (s : List Char) :
    isNavigableUrl s = true ↔
      (startsWithCI ("http://".data) (jsTrim s) ∨
       startsWithCI ("https://".data) (jsTrim s) ∨
       startsWithCI ("mailto:".data) (jsTrim s)) := by
  by_cases hs : s = []
  · subst hs
    unfold isNavigableUrl startsWithCI
    decide
  · unfold isNavigableUrl startsWithCI
    rw [if_neg hs]
    simp only [Bool.or_eq_true, ciPrefixB_iff]
    rw [or_assoc]

/-- C5: from a hidden popup, clicking a text marker shows the popup
pinned, and a second click on the same marker hides it again and
removes the pin. -/
theorem clickMarker_twice_from_hidden (st : PopupState) (pos : ℚ × ℚ)
    (h : st.visible = false) :
    (clickMarker st pos).visible = true ∧ (clickMarker st pos).pinned = true ∧
    (clickMarker (clickMarker st pos) pos).visible = false ∧
    (clickMarker (clickMarker st pos) pos).pinned = false := by
  have h1 : clickMarker st pos = { visible := true, pinned := true, lastPos := some pos } := by
    unfold clickMarker
    rw [h]
    simp
  have h2 : clickMarker { visible := true, pinned := true, lastPos := some pos } pos
      = { visible := false, pinned := false, lastPos := some pos } := by
    unfold clickMarker
    simp
  refine ⟨by rw [h1], by rw [h1], by rw [h1, h2], by rw [h1, h2]⟩

/-- Witness for C5 at the initial state and the origin. -/
theorem clickMarker_twice_from_hidden_witness :
    initialPopupState.visible = false ∧
    ((clickMarker initialPopupState ((0 : ℚ), (0 : ℚ))).visible = true ∧
     (clickMarker initialPopupState ((0 : ℚ), (0 : ℚ))).pinned = true ∧
     (clickMarker (clickMarker initialPopupState ((0 : ℚ), (0 : ℚ)))
        ((0 : ℚ), (0 : ℚ))).visible = false ∧
     (clickMarker (clickMarker initialPopupState ((0 : ℚ), (0 : ℚ)))
        ((0 : ℚ), (0 : ℚ))).pinned = false) :=
  ⟨rfl, clickMarker_twice_from_hidden initialPopupState ((0 : ℚ), (0 : ℚ)) rfl⟩

/-- C7: item rows occurring before any section row are silently
discarded, so a run consisting only of such rows contributes nothing. -/
theorem rowsToSections_discards_orphan_rows (orphans rest : List Row)
    (h : ∀ r ∈ orphans, isIntegerCell (jsTrim ((jsCell r 0).getD [])) = false) :
    rowsToSections (orphans ++ rest) = rowsToSections rest := by
  simp only [rowsToSections]
  rw [List.foldl_append, buildState_orphans h]

/-- Witness for C7: the single-row input of the specification example
produces zero sections and zero items. -/
theorem rowsToSections_discards_orphan_rows_witness :
    rowsToSections (parseCsv ("A,http://x,1,1,green,15".data)) = [] := by
  have h := rowsToSections_discards_orphan_rows
    (parseCsv ("A,http://x,1,1,green,15".data)) [] (by decide)
  simpa [rowsToSections] using h

/-- C4, counterexample: a carriage return inside a quoted field is NOT
discarded by the parser; the input consisting of the single quoted
field `a<CR>b` yields a cell that still contains the carriage return. -/
theorem parseCsv_cr_inside_quotes_counterexample :
    parseCsv ("\"a\rb\"".data) = [["a\rb".data]] ∧ '\r' ∈ ("a\rb".data : List Char) := by
  decide

/-- C4, amended: carriage returns are discarded unconditionally only
outside quoted context; on input containing no quote character, no cell
of the parse ever contains a carriage return. -/
theorem parseCsv_no_cr_when_unquoted (text : List Char)
    (h : ∀ c ∈ text, c ≠ '"') :
    ∀ row ∈ parseCsv text, ∀ cell ∈ row, '\r' ∉ cell := by
  intro row hr cell hc hmem
  unfold parseCsv at hr
  rw [List.mem_map] at hr
  obtain ⟨row0, hr0, hrow⟩ := hr
  subst hrow
  rw [List.mem_map] at hc
  obtain ⟨cell0, hc0, hcell⟩ := hc
  subst hcell
  exact csvLoop_no_cr h [] [] [] (by simp) (by simp) (by simp) row0 hr0 cell0 hc0
    (mem_jsTrim hmem)

/-- Witness for the amended C4 on a quote-free input containing a
carriage-return line break. -/
theorem parseCsv_no_cr_when_unquoted_witness :
    (∀ c ∈ ("a,b\r\nc".data : List Char), c ≠ '"') ∧
    (∀ row ∈ parseCsv ("a,b\r\nc".data), ∀ cell ∈ row, '\r' ∉ cell) :=
  ⟨by decide, parseCsv_no_cr_when_unquoted _ (by decide)⟩

/-- C6: an item row whose x or y cell does not parse to a finite number
is excluded; removing such a row from the input leaves the built
sections unchanged, so its section and all other rows are unaffected. -/
theorem rowsToSections_drops_nonfinite_item (pre post : List Row) (r : Row)
    (h1 : isIntegerCell (jsTrim ((jsCell r 0).getD [])) = false)
    (h2 : parseNumberCell (jsCell r 2) none = none ∨
      parseNumberCell (jsCell r 3) none = none) :
    rowsToSections (pre ++ r :: post) = rowsToSections (pre ++ post) := by
  simp only [rowsToSections]
  rw [List.foldl_append, List.foldl_cons, buildStep_eq_of_bad_item _ r h1 h2,
    ← List.foldl_append]

/-- Witness for C6: a row with a non-numeric x cell after a section row
contributes nothing. -/
theorem rowsToSections_drops_nonfinite_item_witness :
    (isIntegerCell (jsTrim ((jsCell ["A".data, "txt".data, "z".data, "2".data] 0).getD []))
      = false) ∧
    (parseNumberCell (jsCell ["A".data, "txt".data, "z".data, "2".data] 2) none = none) ∧
    rowsToSections [["1".data, "img".data], ["A".data, "txt".data, "z".data, "2".data]]
      = rowsToSections [["1".data, "img".data]] :=
  ⟨by decide, by decide,
    rowsToSections_drops_nonfinite_item [["1".data, "img".data]] []
      ["A".data, "txt".data, "z".data, "2".data] (by decide) (Or.inl (by decide))⟩

/-- C8: a well-formed quoted field with an embedded doubled quote
parses to a single cell holding exactly one literal quote character at
that position. -/
theorem parseCsv_doubled_quote (a b : List Char) (ha : ∀ x ∈ a, x ≠ '"')
    (hb : ∀ x ∈ b, x ≠ '"') :
    parseCsv ('"' :: (a ++ ('"' :: '"' :: (b ++ ['"'])))) = [[jsTrim (a ++ '"' :: b)]] ∧
    (jsTrim (a ++ '"' :: b)).count '"' = 1 := by
  constructor
  · unfold parseCsv
    rw [csvLoop_open_quote, csvLoop_quoted_run ha, List.nil_append, csvLoop_dquote,
      csvLoop_quoted_run hb, csvLoop_quote_nil, if_pos (by simp)]
    simp [List.append_assoc]
  · rw [count_jsTrim _ (by decide), List.count_append]
    have hca : a.count '"' = 0 := List.count_eq_zero.mpr (fun hm => ha '"' hm rfl)
    have hcb : b.count '"' = 0 := List.count_eq_zero.mpr (fun hm => hb '"' hm rfl)
    simp [hca, hcb]

/-- Witness for C8 with content around the doubled quote. -/
theorem parseCsv_doubled_quote_witness :
    parseCsv ('"' :: ("x".data ++ ('"' :: '"' :: ("y".data ++ ['"']))))
      = [[jsTrim ("x".data ++ '"' :: "y".data)]] ∧
    (jsTrim ("x".data ++ '"' :: "y".data)).count '"' = 1 :=
  parseCsv_doubled_quote ("x".data) ("y".data) (by decide) (by decide)

/-- C9: the percentage-or-number coercion is total and returns the
value of the cell read as a signed decimal numeral with an optional
trailing percent sign, and the fallback exactly when the cell is
absent, empty after trimming, or of no such form. -/
theorem parsePercentCell_spec (cell : Option (List Char)) (fb : Option ℚ) :
    (cell = none → parsePercentCell cell fb = fb)
    ∧ (∀ c, cell = some c → jsTrim c = [] → parsePercentCell cell fb = fb)
    ∧ (∀ c v, cell = some c → PercentForm (jsTrim c) v → parsePercentCell cell fb = some v)
    ∧ (∀ c, cell = some c → (∀ v, ¬ PercentForm (jsTrim c) v) →
        parsePercentCell cell fb = fb) := by
  refine ⟨?_, ?_, ?_, ?_⟩
  · rintro rfl
    rfl
  · rintro c rfl he
    simp [parsePercentCell, he]
  · rintro c v rfl hform
    obtain ⟨neg, ip, fp, hmatch, hval⟩ := percent_complete hform
    have hne : jsTrim c ≠ [] := by
      intro he
      rw [he] at hmatch
      have h0 : percentRegexMatch ([] : List Char) = none := rfl
      rw [h0] at hmatch
      exact Option.noConfusion hmatch
    simp only [parsePercentCell]
    rw [if_neg hne, hmatch]
    exact congrArg some hval
  · rintro c rfl hnone
    by_cases he : jsTrim c = []
    · simp [parsePercentCell, he]
    · rcases hm : percentRegexMatch (jsTrim c) with _ | ⟨nr, ip, fp⟩
      · simp [parsePercentCell, he, hm]
      · exact absurd (percent_sound hm) (hnone _)

/-- Witness for C9 on the cell ` 50 % ` with fallback 100. -/
theorem parsePercentCell_spec_witness :
    PercentForm (jsTrim (" 50 % ".data)) 50 ∧
    parsePercentCell (some (" 50 % ".data)) (some 100) = some 50 := by
  have hform : PercentForm (jsTrim (" 50 % ".data)) 50 := by
    refine ⟨false, ['5', '0'], [], [' '], true, by decide, by decide, by decide,
      by decide, by decide, ?_⟩
    have h5 : natOfDigits ['5', '0'] = 50 := by decide
    have h0 : natOfDigits ([] : List Char) = 0 := rfl
    simp [signVal, decValue, h5, h0]
  exact ⟨hform,
    (parsePercentCell_spec (some (" 50 % ".data)) (some 100)).2.2.1 _ 50 rfl hform⟩

/-- C10, counterexample: a trimmed image cell that begins and ends with
a double quote but whose interior holds a newline is NOT stripped (the
regex dot does not match line terminators), so the produced image
reference keeps its outer quotes, and differs from the stripped and
re-trimmed interior the claim predicts. -/
theorem imageCell_quote_newline_counterexample :
    (rowsToSections [["0".data, "\"a\nb\"".data]]).map (fun s => s.imageUrl)
      = ["\"a\nb\"".data] ∧
    ("\"a\nb\"".data : List Char) ≠ jsTrim ("a\nb".data) := by
  decide

/-- C10, amended: after CSV parsing and trimming, the image-reference
cell of a section row and the content cell of an item row get a second
layer of quote stripping: when the cell is a quote, an interior free of
line terminators, and a closing quote, the outer quote pair is removed
and the result re-trimmed; the title, subtitle and color cells keep
their outer quotes, and x, y and radius are parsed from the unstripped
cells.  Stated on a section row followed by an item row. -/
theorem rowsToSections_strips_outer_quotes (mid mid2 t col : List Char)
    (h1 : ∀ c ∈ mid, isLineTerm c = false)
    (h2 : ∀ c ∈ mid2, isLineTerm c = false) :
    rowsToSections
      [["0".data, '"' :: (mid ++ ['"']), '"' :: (t ++ ['"']), "sub".data],
       ["A".data, '"' :: (mid2 ++ ['"']), "1".data, "2".data, '"' :: (col ++ ['"'])]]
      = [{ id := 0, imageUrl := jsTrim mid, title := '"' :: (t ++ ['"']),
           subtitle := "sub".data, scalePercent := some 100, titleYOffsetPx := some 0,
           items := [{ name := "A".data, linkOrText := jsTrim mid2,
                       isUrl := isNavigableUrl (jsTrim mid2), x := 1, y := 2,
                       color := '"' :: (col ++ ['"']), radius := some 15 }] }] := by
  have e1 : stripOuterQuotes ('"' :: (mid ++ ['"'])) = mid := stripOuterQuotes_quoted h1
  have e2 : stripOuterQuotes ('"' :: (mid2 ++ ['"'])) = mid2 := stripOuterQuotes_quoted h2
  have e3 : jsTrim ('"' :: (t ++ ['"'])) = '"' :: (t ++ ['"']) := jsTrim_quote_ends t
  have e4 : jsTrim ('"' :: (col ++ ['"'])) = '"' :: (col ++ ['"']) := jsTrim_quote_ends col
  have e5 : ('"' :: (col ++ ['"']) : List Char) ≠ [] := by simp
  have e6 : parseNumberCell (some ("1".data)) none = some 1 := by
    have h0 : parseNumberCell (some ("1".data)) none
        = some (signVal false (decValue ['1'] [] * (10 : ℚ) ^ expPart [])) := rfl
    have hc : natOfDigits ['1'] = 1 := by decide
    have hn : natOfDigits ([] : List Char) = 0 := rfl
    rw [h0]
    norm_num [signVal, decValue, hc, hn, expPart]
  have e7 : parseNumberCell (some ("2".data)) none = some 2 := by
    have h0 : parseNumberCell (some ("2".data)) none
        = some (signVal false (decValue ['2'] [] * (10 : ℚ) ^ expPart [])) := rfl
    have hc : natOfDigits ['2'] = 2 := by decide
    have hn : natOfDigits ([] : List Char) = 0 := rfl
    rw [h0]
    norm_num [signVal, decValue, hc, hn, expPart]
  have ha0 : jsTrim ("0".data) = "0".data := by decide
  have hint0 : isIntegerCell ("0".data) = true := by decide
  have hid0 : natOfDigits ("0".data) = 0 := by decide
  have haA : jsTrim ("A".data) = "A".data := by decide
  have hintA : isIntegerCell ("A".data) = false := by decide
  have hsub : jsTrim ("sub".data) = "sub".data := by decide
  simp only [rowsToSections, List.foldl_cons, List.foldl_nil]
  simp [buildStep, sectionOfRow, itemOfRow, jsCell, ha0, hint0, hid0, haA, hintA,
    hsub, e1, e2, e3, e4, e5, e6, e7]
  exact ⟨rfl, rfl, rfl⟩

/-- Witness for the amended C10 at concrete cells. -/
theorem rowsToSections_strips_outer_quotes_witness :
    rowsToSections
      [["0".data, '"' :: ("x".data ++ ['"']), '"' :: ("T".data ++ ['"']), "sub".data],
       ["A".data, '"' :: ("y".data ++ ['"']), "1".data, "2".data,
        '"' :: ("red".data ++ ['"'])]]
      = [{ id := 0, imageUrl := jsTrim ("x".data), title := '"' :: ("T".data ++ ['"']),
           subtitle := "sub".data, scalePercent := some 100, titleYOffsetPx := some 0,
           items := [{ name := "A".data, linkOrText := jsTrim ("y".data),
                       isUrl := isNavigableUrl (jsTrim ("y".data)), x := 1, y := 2,
                       color := '"' :: ("red".data ++ ['"']), radius := some 15 }] }] :=
  rowsToSections_strips_outer_quotes ("x".data) ("y".data) ("T".data) ("red".data)
    (by decide) (by decide)

theorem escapeHtml_cons_safe {c : Char} (hc : escapeHtml [c] = [c]) (l : List Char) :
    escapeHtml (c :: l) = c :: escapeHtml l := by
  have h : c :: l = [c] ++ l := rfl
  rw [h, escapeHtml_append, hc]
  rfl

/-- C3: the popup markup renderer escapes the raw text first, then
turns an occurrence of the pattern `[label](target)` into an activation
link exactly when the target passes the navigable-link test, renders it
otherwise as the escaped label annotated with the literal target in
parentheses, and turns newlines into line breaks; the surrounding text
receives no other transformation.  Stated for an occurrence whose
pieces contain no escaped characters, with no opening bracket before
it, and arbitrary following text. -/
theorem mdToSafeHtml_markdown_link (a label url b : List Char)
    (ha1 : htmlSafe a) (ha2 : '[' ∉ a)
    (hl1 : htmlSafe label) (hl2 : ']' ∉ label) (hl3 : label ≠ [])
    (hu1 : htmlSafe url) (hu2 : ')' ∉ url) (hu3 : url ≠ [])
    (hu4 : ∀ c ∈ url, isJsWhitespace c = false) :
    mdToSafeHtml (a ++ ('[' :: (label ++ (']' :: '(' :: (url ++ (')' :: b))))))
      = replaceAllChar a '\n' ("<br>".data) ++
        ((if isNavigableUrl url then
            ("<a href=\"".data) ++ url ++
              ("\" target=\"_blank\" rel=\"noopener noreferrer\">".data) ++
              replaceAllChar label '\n' ("<br>".data) ++ ("</a>".data)
          else replaceAllChar label '\n' ("<br>".data) ++ (" (".data) ++ url ++ (")".data)) ++
          mdToSafeHtml b) := by
  have k1 : ∀ l, escapeHtml ('[' :: l) = '[' :: escapeHtml l :=
    fun l => escapeHtml_cons_safe (by decide) l
  have k2 : ∀ l, escapeHtml (']' :: l) = ']' :: escapeHtml l :=
    fun l => escapeHtml_cons_safe (by decide) l
  have k3 : ∀ l, escapeHtml ('(' :: l) = '(' :: escapeHtml l :=
    fun l => escapeHtml_cons_safe (by decide) l
  have k4 : ∀ l, escapeHtml (')' :: l) = ')' :: escapeHtml l :=
    fun l => escapeHtml_cons_safe (by decide) l
  have hesc : escapeHtml (a ++ ('[' :: (label ++ (']' :: '(' :: (url ++ (')' :: b))))))
      = a ++ ('[' :: (label ++ (']' :: '(' :: (url ++ (')' :: escapeHtml b))))) := by
    rw [escapeHtml_append, escapeHtml_of_safe ha1, k1, escapeHtml_append,
      escapeHtml_of_safe hl1, k2, k3, escapeHtml_append, escapeHtml_of_safe hu1, k4]
  have hscan : mdLinkScan (a ++ ('[' :: (label ++ (']' :: '(' :: (url ++ (')' :: escapeHtml b))))))
      = a ++ (mdLinkRender label url ++ mdLinkScan (escapeHtml b)) := by
    rw [mdLinkScan_append_no_bracket (fun x hx e => ha2 (e ▸ hx)),
      mdLinkScan_link (escapeHtml b) hl3 (fun x hx e => hl2 (e ▸ hx)) hu3
        (fun x hx e => hu2 (e ▸ hx))]
  have hjs : jsTrim url = url := jsTrim_of_no_ws hu4
  have hnlu : '\n' ∉ url := by
    intro hm
    have h := hu4 '\n' hm
    exact absurd h (by decide)
  have hrender : mdLinkRender label url
      = (if isNavigableUrl url then
          ("<a href=\"".data) ++ url ++
            ("\" target=\"_blank\" rel=\"noopener noreferrer\">".data) ++ label ++
            ("</a>".data)
        else label ++ (" (".data) ++ url ++ (")".data)) := by
    unfold mdLinkRender
    rw [hjs]
    dsimp only
    rw [escapeHtml_of_safe hu1, escapeHtml_of_safe hl1]
  have n1 : replaceAllChar ("<a href=\"".data) '\n' ("<br>".data)
      = "<a href=\"".data := by decide
  have n2 : replaceAllChar ("\" target=\"_blank\" rel=\"noopener noreferrer\">".data)
      '\n' ("<br>".data)
      = "\" target=\"_blank\" rel=\"noopener noreferrer\">".data := by decide
  have n3 : replaceAllChar ("</a>".data) '\n' ("<br>".data) = "</a>".data := by decide
  have n4 : replaceAllChar (" (".data) '\n' ("<br>".data) = " (".data := by decide
  have n5 : replaceAllChar (")".data) '\n' ("<br>".data) = ")".data := by decide
  have nurl : replaceAllChar url '\n' ("<br>".data) = url :=
    replaceAllChar_of_not_mem _ hnlu
  unfold mdToSafeHtml
  rw [hesc, hscan, hrender, replaceAllChar_append, replaceAllChar_append]
  by_cases hnav : isNavigableUrl url
  · rw [if_pos hnav, if_pos hnav]
    rw [replaceAllChar_append, replaceAllChar_append, replaceAllChar_append,
      replaceAllChar_append, n1, n2, n3, nurl]
  · rw [if_neg hnav, if_neg hnav]
    rw [replaceAllChar_append, replaceAllChar_append, replaceAllChar_append,
      n4, n5, nurl]

/-- Witness for C3 on the specification example
`See [docs](https://example.com/d) for info`. -/
theorem mdToSafeHtml_markdown_link_witness :
    mdToSafeHtml ("See ".data ++ ('[' :: ("docs".data ++ (']' :: '(' ::
        ("https://example.com/d".data ++ (')' :: " for info".data))))))
      = replaceAllChar ("See ".data) '\n' ("<br>".data) ++
        ((if isNavigableUrl ("https://example.com/d".data) then
            ("<a href=\"".data) ++ ("https://example.com/d".data) ++
              ("\" target=\"_blank\" rel=\"noopener noreferrer\">".data) ++
              replaceAllChar ("docs".data) '\n' ("<br>".data) ++ ("</a>".data)
          else replaceAllChar ("docs".data) '\n' ("<br>".data) ++ (" (".data) ++
            ("https://example.com/d".data) ++ (")".data)) ++
          mdToSafeHtml (" for info".data)) :=
  mdToSafeHtml_markdown_link ("See ".data) ("docs".data) ("https://example.com/d".data)
    (" for info".data) (by decide) (by decide) (by decide) (by decide) (by decide)
    (by decide) (by decide) (by decide) (by decide)

end Stationen
